import Mathlib

/-!
Verification of the vector similarity search driver of the jina repository,
together with the `all_checks_passed` helper of `scripts/jina-hub-update.py`.

The repository ships, under `src/`, the unit test
`tests/unit/drivers/test_vector_search_driver.py` (which fixes the mock
indexer, the test document and the expected behaviour of
`VectorSearchDriver._apply_all`) and the release script
`scripts/jina-hub-update.py`.  The driver implementation itself
(`jina/drivers/search.py`) is not part of `src/`, so the driver is modelled
from the specification; the mock indexer, the test document and
`all_checks_passed` are translated from the source.

Numeric values (embeddings, distances, identifiers flowing through the
mock indexer) are modelled as rationals `ℚ`; hierarchy depths are `ℕ`.
-/

namespace JinaVectorSearch

/-- Score of a match: `ref_id` is the identifier of the chunk that produced
the match, `value` is the distance passed through verbatim from the backend. -/
structure Score where
  ref_id : ℚ
  value : ℚ
deriving DecidableEq, Inhabited

/-- A match entity: neighbor identifier as reported by the index, the
hierarchy depth copied from the querying chunk, and a score. -/
structure Mtch where
  id : ℚ
  level_depth : ℕ
  score : Score
deriving DecidableEq, Inhabited

/-- A chunk of a document: identifier, hierarchy depth, an optional
embedding vector and a mutable (here: explicitly threaded) match list. -/
structure Chunk where
  id : ℚ
  level_depth : ℕ
  embedding : Option (List ℚ)
  matchList : List Mtch
deriving DecidableEq, Inhabited

/-- A document: identifier and its ordered chunks. -/
structure Document where
  id : ℚ
  chunks : List Chunk
deriving DecidableEq, Inhabited

/-- A vector index backend, seen through the only operation the search path
uses: `query` takes a batch of vectors and a `top_k` and either fails or
returns, index-aligned with the batch, a row of neighbor identifiers and a
row of distances per input vector. -/
structure Index where
  query : List (List ℚ) → ℕ → Except String (List (List ℚ) × List (List ℚ))

/-- The embeddings of the embedding-bearing chunks, in original order. -/
def extractEmbeddings (chunks : List Chunk) : List (List ℚ) :=
  chunks.filterMap (·.embedding)

/-- The matches built from one backend result row for chunk `c`: the j-th
match carries the j-th neighbor identifier and the j-th distance verbatim,
`level_depth` copied from `c`, and `score.ref_id` set to `c.id`. -/
def buildMatches (c : Chunk) (idRow distRow : List ℚ) : List Mtch :=
  (idRow.zip distRow).map fun p =>
    { id := p.1, level_depth := c.level_depth,
      score := { ref_id := c.id, value := p.2 } }

/-- Distributing the backend's result rows back onto the chunks: chunks
without an embedding are left untouched and consume no row; each
embedding-bearing chunk consumes the next row pair and gets the matches
built from it appended, in backend order. -/
def attachRows : List Chunk → List (List ℚ) → List (List ℚ) → List Chunk
  | [], _, _ => []
  | c :: cs, ids, dists =>
    match c.embedding with
    | none => c :: attachRows cs ids dists
    | some _ =>
      { c with matchList := c.matchList ++ buildMatches c (ids.headD []) (dists.headD []) }
        :: attachRows cs ids.tail dists.tail

/-- Result of one `apply` call: the chunk list after the call, the error if
the index call failed, and how many times `index.query` was invoked. -/
structure ApplyResult where
  chunks : List Chunk
  error : Option String
  queryCalls : ℕ
deriving Inhabited

/-- Modelled from the spec: `VectorSearchDriver._apply_all`
(`jina/drivers/search.py` is not under `src/`; only its unit test is).
Per §4.2/§5 of the spec: chunks without an embedding are skipped; the
embeddings of the remaining chunks are collected in original order and
passed as one batch to `index.query(vectors, top_k)`; each result row is
mapped to matches appended to the originating chunk in backend order, with
`level_depth` copied from the chunk and `score.ref_id` set to the chunk id;
an empty chunk sequence is a no-op with no index call; if the index call
raises, the whole call fails and no chunk gains a match. -/
def applyAll (index : Index) (top_k : ℕ) (chunks : List Chunk) : ApplyResult :=
  if chunks.isEmpty then ⟨chunks, none, 0⟩
  else
    match index.query (extractEmbeddings chunks) top_k with
    | .error e => ⟨chunks, some e, 1⟩
    | .ok (ids, dists) => ⟨attachRows chunks ids dists, none, 1⟩

/-- The row of the batched query result that belongs to the chunk at
position `i`: the number of embedding-bearing chunks strictly before `i`. -/
def rowIndex (cs : List Chunk) (i : ℕ) : ℕ :=
  (extractEmbeddings (cs.take i)).length

/-- Translated from `MockIndexer.query` in
`tests/unit/drivers/test_vector_search_driver.py`: the identifier rows are
`np.hstack((100 * vectors, 1000 * vectors))`. -/
def mockQueryIds (vectors : List (List ℚ)) : List (List ℚ) :=
  vectors.map fun v => v.map (fun x => 100 * x) ++ v.map (fun x => 1000 * x)

/-- Translated from `MockIndexer.query`: the distance rows are
`np.hstack((0.01 * vectors, 0.1 * vectors))`. -/
def mockQueryDists (vectors : List (List ℚ)) : List (List ℚ) :=
  vectors.map fun v => v.map (fun x => (1 / 100) * x) ++ v.map (fun x => (1 / 10) * x)

/-- The mock indexer of the unit test: `query` always succeeds and ignores
`top_k`, returning the hstacked identifier and distance rows. -/
def MockIndexer : Index :=
  ⟨fun vectors _k => .ok (mockQueryIds vectors, mockQueryDists vectors)⟩

/-- Translated from `create_document_to_search` in
`tests/unit/drivers/test_vector_search_driver.py`: document id 1 with ten
chunks, chunk `c` (for `c` in `0..9`) having id `doc.id + c + 1` and a
one-component embedding equal to its own id; proto fields left unset
(`level_depth`) default to 0 and match lists start empty. -/
def create_document_to_search : Document :=
  { id := 1,
    chunks := (List.range 10).map fun c =>
      { id := 1 + (c : ℚ) + 1, level_depth := 0,
        embedding := some [1 + (c : ℚ) + 1], matchList := [] } }

/-! ### List helper lemmas -/

theorem headD_eq_getD_zero {α : Type _} (l : List α) (d : α) : l.headD d = l.getD 0 d := by
  cases l <;> rfl

theorem getD_tail {α : Type _} (l : List α) (j : ℕ) (d : α) :
    l.tail.getD j d = l.getD (j + 1) d := by
  cases l <;> simp [List.getD]

theorem getD_map {α β : Type _} (f : α → β) (l : List α) (j : ℕ) (d : α) :
    (l.map f).getD j (f d) = f (l.getD j d) := by
  induction l generalizing j with
  | nil => simp [List.getD]
  | cons a l ih => cases j <;> simp [List.getD, ih]

theorem getD_append_length_add {α : Type _} (l l' : List α) (j : ℕ) (d : α) :
    (l ++ l').getD (l.length + j) d = l'.getD j d := by
  induction l with
  | nil => simp
  | cons a l ih => simpa [List.getD, Nat.succ_add] using ih

/-! ### Basic properties of the embedded driver -/

theorem rowIndex_zero (cs : List Chunk) : rowIndex cs 0 = 0 := by
  simp [rowIndex, extractEmbeddings]

theorem rowIndex_cons_succ_none (c : Chunk) (cs : List Chunk) (i : ℕ)
    (h : c.embedding = none) : rowIndex (c :: cs) (i + 1) = rowIndex cs i := by
  simp [rowIndex, extractEmbeddings, List.filterMap_cons, h]

theorem rowIndex_cons_succ_some (c : Chunk) (cs : List Chunk) (i : ℕ) (v : List ℚ)
    (h : c.embedding = some v) : rowIndex (c :: cs) (i + 1) = rowIndex cs i + 1 := by
  simp [rowIndex, extractEmbeddings, List.filterMap_cons, h]

theorem attachRows_length (cs : List Chunk) :
    ∀ ids dists : List (List ℚ), (attachRows cs ids dists).length = cs.length := by
  induction cs with
  | nil => intro ids dists; rfl
  | cons c cs ih =>
    intro ids dists
    cases h : c.embedding <;> simp [attachRows, h, ih]

theorem buildMatches_matchList_irrel (c : Chunk) (X : List Mtch) (r d : List ℚ) :
    buildMatches { c with matchList := X } r d = buildMatches c r d := rfl

theorem attachRows_getD_none (cs : List Chunk) :
    ∀ (ids dists : List (List ℚ)) (i : ℕ), i < cs.length →
      (cs.getD i default).embedding = none →
      (attachRows cs ids dists).getD i default = cs.getD i default := by
  induction cs with
  | nil => intro ids dists i hi; simp at hi
  | cons c cs ih =>
    intro ids dists i hi hemb
    cases i with
    | zero =>
      simp only [List.getD_cons_zero] at hemb ⊢
      simp [attachRows, hemb]
    | succ i =>
      simp only [List.getD_cons_succ] at hemb ⊢
      cases h : c.embedding with
      | none =>
        simp only [attachRows, h]
        rw [List.getD_cons_succ]
        exact ih ids dists i (by simpa using hi) hemb
      | some v =>
        simp only [attachRows, h]
        rw [List.getD_cons_succ]
        exact ih ids.tail dists.tail i (by simpa using hi) hemb

theorem attachRows_getD_some (cs : List Chunk) :
    ∀ (ids dists : List (List ℚ)) (i : ℕ) (v : List ℚ), i < cs.length →
      (cs.getD i default).embedding = some v →
      (attachRows cs ids dists).getD i default =
        { cs.getD i default with
          matchList := (cs.getD i default).matchList ++
            buildMatches (cs.getD i default)
              (ids.getD (rowIndex cs i) []) (dists.getD (rowIndex cs i) []) } := by
  induction cs with
  | nil => intro ids dists i v hi; simp at hi
  | cons c cs ih =>
    intro ids dists i v hi hemb
    cases i with
    | zero =>
      simp only [List.getD_cons_zero] at hemb ⊢
      have h1 : attachRows (c :: cs) ids dists =
          { c with matchList :=
              c.matchList ++ buildMatches c (ids.headD []) (dists.headD []) }
            :: attachRows cs ids.tail dists.tail := by
        simp [attachRows, hemb]
      rw [h1, List.getD_cons_zero, rowIndex_zero,
        headD_eq_getD_zero ids [], headD_eq_getD_zero dists []]
    | succ i =>
      simp only [List.getD_cons_succ] at hemb ⊢
      cases h : c.embedding with
      | none =>
        simp only [attachRows, h]
        rw [List.getD_cons_succ, rowIndex_cons_succ_none c cs i h]
        exact ih ids dists i v (by simpa using hi) hemb
      | some w =>
        simp only [attachRows, h]
        rw [List.getD_cons_succ, rowIndex_cons_succ_some c cs i w h,
          ih ids.tail dists.tail i v (by simpa using hi) hemb,
          getD_tail, getD_tail]

theorem extractEmbeddings_attachRows (cs : List Chunk) :
    ∀ ids dists : List (List ℚ),
      extractEmbeddings (attachRows cs ids dists) = extractEmbeddings cs := by
  induction cs with
  | nil => intro ids dists; rfl
  | cons c cs ih =>
    intro ids dists
    cases h : c.embedding with
    | none =>
      simp only [attachRows, h, extractEmbeddings, List.filterMap_cons]
      simpa [extractEmbeddings] using ih ids dists
    | some v =>
      simp only [attachRows, h, extractEmbeddings, List.filterMap_cons]
      simpa [extractEmbeddings, h] using ih ids.tail dists.tail

theorem rowIndex_attachRows (cs : List Chunk) :
    ∀ (ids dists : List (List ℚ)) (i : ℕ),
      rowIndex (attachRows cs ids dists) i = rowIndex cs i := by
  induction cs with
  | nil => intro ids dists i; rfl
  | cons c cs ih =>
    intro ids dists i
    cases i with
    | zero => rw [rowIndex_zero, rowIndex_zero]
    | succ i =>
      cases h : c.embedding with
      | none =>
        simp only [attachRows, h]
        rw [rowIndex_cons_succ_none _ _ _ h, rowIndex_cons_succ_none c cs i h, ih]
      | some v =>
        simp only [attachRows, h]
        rw [rowIndex_cons_succ_some _ _ _ v (by simp [h]),
          rowIndex_cons_succ_some c cs i v h, ih]

theorem buildMatches_length (c : Chunk) (r d : List ℚ) :
    (buildMatches c r d).length = min r.length d.length := by
  simp [buildMatches]

theorem buildMatches_getD (c : Chunk) (r d : List ℚ) :
    ∀ j : ℕ, j < min r.length d.length →
      (buildMatches c r d).getD j default =
        { id := r.getD j 0, level_depth := c.level_depth,
          score := { ref_id := c.id, value := d.getD j 0 } } := by
  induction r generalizing d with
  | nil => intro j hj; simp at hj
  | cons a r ih =>
    intro j hj
    cases d with
    | nil => simp at hj
    | cons b d =>
      cases j with
      | zero => rfl
      | succ j =>
        have hj' : j < min r.length d.length := by
          simp only [List.length_cons] at hj; omega
        simpa [buildMatches, List.getD_cons_succ] using ih d j hj'

theorem mem_buildMatches (c : Chunk) (r d : List ℚ) (m : Mtch) :
    m ∈ buildMatches c r d → m.level_depth = c.level_depth ∧ m.score.ref_id = c.id := by
  intro hm
  simp only [buildMatches, List.mem_map] at hm
  obtain ⟨p, _, rfl⟩ := hm
  exact ⟨rfl, rfl⟩

theorem attachRows_depth (cs : List Chunk) :
    ∀ ids dists : List (List ℚ),
      (∀ c ∈ cs, ∀ m ∈ c.matchList, m.level_depth = c.level_depth) →
      ∀ c ∈ attachRows cs ids dists, ∀ m ∈ c.matchList, m.level_depth = c.level_depth := by
  induction cs with
  | nil => intro ids dists _ c hc; simp [attachRows] at hc
  | cons c cs ih =>
    intro ids dists hpre c' hc' m hm
    cases h : c.embedding with
    | none =>
      rw [attachRows, h] at hc'
      rcases List.mem_cons.1 hc' with rfl | hc'
      · exact hpre c' (List.mem_cons_self c' cs) m hm
      · exact ih ids dists (fun a ha => hpre a (List.mem_cons_of_mem c ha)) c' hc' m hm
    | some v =>
      rw [attachRows, h] at hc'
      rcases List.mem_cons.1 hc' with rfl | hc'
      · rcases List.mem_append.1 hm with hm' | hm'
        · exact hpre c (List.mem_cons_self c cs) m hm'
        · exact (mem_buildMatches c _ _ m hm').1
      · exact ih ids.tail dists.tail
          (fun a ha => hpre a (List.mem_cons_of_mem c ha)) c' hc' m hm

theorem attachRows_refId (cs : List Chunk) :
    ∀ ids dists : List (List ℚ),
      (∀ c ∈ cs, ∀ m ∈ c.matchList, m.score.ref_id = c.id) →
      ∀ c ∈ attachRows cs ids dists, ∀ m ∈ c.matchList, m.score.ref_id = c.id := by
  induction cs with
  | nil => intro ids dists _ c hc; simp [attachRows] at hc
  | cons c cs ih =>
    intro ids dists hpre c' hc' m hm
    cases h : c.embedding with
    | none =>
      rw [attachRows, h] at hc'
      rcases List.mem_cons.1 hc' with rfl | hc'
      · exact hpre c' (List.mem_cons_self c' cs) m hm
      · exact ih ids dists (fun a ha => hpre a (List.mem_cons_of_mem c ha)) c' hc' m hm
    | some v =>
      rw [attachRows, h] at hc'
      rcases List.mem_cons.1 hc' with rfl | hc'
      · rcases List.mem_append.1 hm with hm' | hm'
        · exact hpre c (List.mem_cons_self c cs) m hm'
        · exact (mem_buildMatches c _ _ m hm').2
      · exact ih ids.tail dists.tail
          (fun a ha => hpre a (List.mem_cons_of_mem c ha)) c' hc' m hm

theorem applyAll_chunks_ok (index : Index) (top_k : ℕ) (chunks : List Chunk)
    (ids dists : List (List ℚ))
    (hq : index.query (extractEmbeddings chunks) top_k = .ok (ids, dists)) :
    (applyAll index top_k chunks).chunks = attachRows chunks ids dists := by
  unfold applyAll
  cases chunks with
  | nil => rfl
  | cons c cs => simp [hq]

theorem applyAll_error_ok (index : Index) (top_k : ℕ) (chunks : List Chunk)
    (ids dists : List (List ℚ))
    (hq : index.query (extractEmbeddings chunks) top_k = .ok (ids, dists)) :
    (applyAll index top_k chunks).error = none := by
  unfold applyAll
  cases chunks with
  | nil => rfl
  | cons c cs => simp [hq]

theorem applyAll_of_error (index : Index) (top_k : ℕ) (chunks : List Chunk) (e : String)
    (hne : chunks ≠ [])
    (hq : index.query (extractEmbeddings chunks) top_k = .error e) :
    applyAll index top_k chunks = ⟨chunks, some e, 1⟩ := by
  unfold applyAll
  cases chunks with
  | nil => exact absurd rfl hne
  | cons c cs => simp [hq]

theorem map_length_getD (ids dists : List (List ℚ))
    (h : ids.map List.length = dists.map List.length) (j : ℕ) :
    (ids.getD j []).length = (dists.getD j []).length := by
  have ha : (ids.map List.length).getD j ([] : List ℚ).length = (ids.getD j []).length :=
    getD_map List.length ids j []
  have hb : (dists.map List.length).getD j ([] : List ℚ).length = (dists.getD j []).length :=
    getD_map List.length dists j []
  rw [← ha, ← hb, h]

theorem getD_length_le (ids : List (List ℚ)) (k : ℕ)
    (h : ∀ row ∈ ids, row.length ≤ k) (j : ℕ) : (ids.getD j []).length ≤ k := by
  by_cases hj : j < ids.length
  · have hmem : ids.getD j [] ∈ ids := by
      rw [List.getD_eq_getElem ids [] hj]
      exact List.getElem_mem hj
    exact h _ hmem
  · rw [List.getD_eq_default]
    · simp
    · omega

/-! ### The claims -/

set_option maxRecDepth 10000

theorem chunks_of_test_document :
    create_document_to_search.chunks =
      [⟨2, 0, some [2], []⟩, ⟨3, 0, some [3], []⟩, ⟨4, 0, some [4], []⟩,
       ⟨5, 0, some [5], []⟩, ⟨6, 0, some [6], []⟩, ⟨7, 0, some [7], []⟩,
       ⟨8, 0, some [8], []⟩, ⟨9, 0, some [9], []⟩, ⟨10, 0, some [10], []⟩,
       ⟨11, 0, some [11], []⟩] := by
  simp [create_document_to_search, List.range_succ]
  norm_num

/-- C1: reference scenario.  The test document has ten chunks with ids 2..11,
each holding the one-component embedding equal to its own id; querying the
mock indexer with `top_k = 2` gives every chunk exactly two matches whose ids
are `100 * c.id` and `1000 * c.id`, whose score values are `0.01 * c.id` and
`0.1 * c.id` in that order, and whose `score.ref_id` and `level_depth` are
the chunk's own id and depth. -/
theorem c1_reference_scenario :
    create_document_to_search.chunks.map Chunk.id =
      [2, 3, 4, 5, 6, 7, 8, 9, 10, 11] ∧
    (∀ c ∈ create_document_to_search.chunks, c.embedding = some [c.id]) ∧
    ∀ c ∈ (applyAll MockIndexer 2 create_document_to_search.chunks).chunks,
      c.matchList.length = 2 ∧
      (c.matchList.getD 0 default).id = 100 * c.id ∧
      (c.matchList.getD 1 default).id = 1000 * c.id ∧
      (c.matchList.getD 0 default).score.value = (1 / 100) * c.id ∧
      (c.matchList.getD 1 default).score.value = (1 / 10) * c.id ∧
      ∀ m ∈ c.matchList, m.score.ref_id = c.id ∧ m.level_depth = c.level_depth := by
  rw [chunks_of_test_document]
  refine ⟨by norm_num, by norm_num, ?_⟩
  intro c hc
  simp only [applyAll, MockIndexer, extractEmbeddings, mockQueryIds, mockQueryDists,
    attachRows, buildMatches, List.map_append, List.map_cons, List.map_nil,
    List.nil_append, List.cons_append, List.filterMap_cons, List.filterMap_nil,
    List.isEmpty_cons, List.headD, List.tail, List.zip, List.zipWith,
    List.mem_cons, List.not_mem_nil, or_false, Bool.false_eq_true, if_false] at hc
  rcases hc with h | h | h | h | h | h | h | h | h | h <;> subst h <;>
    refine ⟨by norm_num, by norm_num, by norm_num, by norm_num, by norm_num, ?_⟩ <;>
    · intro m hm
      simp only [List.mem_cons, List.not_mem_nil, or_false] at hm
      rcases hm with h | h <;> subst h <;> exact ⟨by norm_num, by norm_num⟩

/-- C2: cardinality.  For a backend answer whose rows are aligned and no
longer than `top_k`, the number of matches appended to the chunk at any
position `i` that carries an embedding is `min top_k (length of its row)`:
short rows are not padded and nothing beyond what was returned is attached. -/
theorem c2_cardinality (index : Index) (k : ℕ) (chunks : List Chunk)
    (ids dists : List (List ℚ))
    (hq : index.query (extractEmbeddings chunks) k = .ok (ids, dists))
    (halign : ids.map List.length = dists.map List.length)
    (hcap : ∀ row ∈ ids, row.length ≤ k)
    (i : ℕ) (hi : i < chunks.length) (v : List ℚ)
    (hemb : (chunks.getD i default).embedding = some v) :
    ((applyAll index k chunks).chunks.getD i default).matchList.length =
      (chunks.getD i default).matchList.length +
        min k ((ids.getD (rowIndex chunks i) []).length) := by
  rw [applyAll_chunks_ok index k chunks ids dists hq,
    attachRows_getD_some chunks ids dists i v hi hemb]
  show ((chunks.getD i default).matchList ++ _).length = _
  rw [List.length_append, buildMatches_length,
    ← map_length_getD ids dists halign (rowIndex chunks i)]
  have hle := getD_length_le ids k hcap (rowIndex chunks i)
  omega

/-- C3: depth inheritance.  If every pre-existing match already carries its
chunk's depth (in particular if all match lists start empty), then after
`apply` every match on every chunk carries the depth of that chunk. -/
theorem c3_depth_inheritance (index : Index) (k : ℕ) (chunks : List Chunk)
    (hpre : ∀ c ∈ chunks, ∀ m ∈ c.matchList, m.level_depth = c.level_depth) :
    ∀ c ∈ (applyAll index k chunks).chunks, ∀ m ∈ c.matchList,
      m.level_depth = c.level_depth := by
  intro c hc m hm
  cases hres : index.query (extractEmbeddings chunks) k with
  | error e =>
    by_cases hch : chunks = []
    · subst hch; simp [applyAll] at hc
    · rw [applyAll_of_error index k chunks e hch hres] at hc
      exact hpre c hc m hm
  | ok p =>
    obtain ⟨ids, dists⟩ := p
    rw [applyAll_chunks_ok index k chunks ids dists hres] at hc
    exact attachRows_depth chunks ids dists hpre c hc m hm

/-- C4: back-reference correctness.  If every pre-existing match already
carries its chunk's id as `score.ref_id` (in particular if all match lists
start empty), then after `apply` every match on every chunk has
`score.ref_id` equal to the id of the chunk it is attached to. -/
theorem c4_back_reference (index : Index) (k : ℕ) (chunks : List Chunk)
    (hpre : ∀ c ∈ chunks, ∀ m ∈ c.matchList, m.score.ref_id = c.id) :
    ∀ c ∈ (applyAll index k chunks).chunks, ∀ m ∈ c.matchList,
      m.score.ref_id = c.id := by
  intro c hc m hm
  cases hres : index.query (extractEmbeddings chunks) k with
  | error e =>
    by_cases hch : chunks = []
    · subst hch; simp [applyAll] at hc
    · rw [applyAll_of_error index k chunks e hch hres] at hc
      exact hpre c hc m hm
  | ok p =>
    obtain ⟨ids, dists⟩ := p
    rw [applyAll_chunks_ok index k chunks ids dists hres] at hc
    exact attachRows_refId chunks ids dists hpre c hc m hm

/-- C5: order preservation and score pass-through.  For the chunk at any
position `i` that carries an embedding, the match list after `apply` is the
old list followed exactly, in order, by the matches built from the backend's
row for that chunk, and the j-th appended match carries the j-th neighbor
id and the j-th distance verbatim. -/
theorem c5_order_preservation (index : Index) (k : ℕ) (chunks : List Chunk)
    (ids dists : List (List ℚ))
    (hq : index.query (extractEmbeddings chunks) k = .ok (ids, dists))
    (i : ℕ) (hi : i < chunks.length) (v : List ℚ)
    (hemb : (chunks.getD i default).embedding = some v) :
    ((applyAll index k chunks).chunks.getD i default).matchList =
      (chunks.getD i default).matchList ++
        buildMatches (chunks.getD i default)
          (ids.getD (rowIndex chunks i) []) (dists.getD (rowIndex chunks i) []) ∧
    ∀ j : ℕ,
      j < min (ids.getD (rowIndex chunks i) []).length
          (dists.getD (rowIndex chunks i) []).length →
      (((applyAll index k chunks).chunks.getD i default).matchList.getD
          ((chunks.getD i default).matchList.length + j) default).id =
        (ids.getD (rowIndex chunks i) []).getD j 0 ∧
      (((applyAll index k chunks).chunks.getD i default).matchList.getD
          ((chunks.getD i default).matchList.length + j) default).score.value =
        (dists.getD (rowIndex chunks i) []).getD j 0 := by
  have hmain : ((applyAll index k chunks).chunks.getD i default).matchList =
      (chunks.getD i default).matchList ++
        buildMatches (chunks.getD i default)
          (ids.getD (rowIndex chunks i) []) (dists.getD (rowIndex chunks i) []) := by
    rw [applyAll_chunks_ok index k chunks ids dists hq,
      attachRows_getD_some chunks ids dists i v hi hemb]
  refine ⟨hmain, ?_⟩
  intro j hj
  rw [hmain, getD_append_length_add, buildMatches_getD _ _ _ j hj]
  exact ⟨rfl, rfl⟩

/-- C6: batch atomicity.  If the single batched index call fails, the whole
`apply` call fails: the chunk list is returned exactly as it was, so no
chunk's match list changes, and the error is surfaced. -/
theorem c6_batch_atomicity (index : Index) (k : ℕ) (chunks : List Chunk) (e : String)
    (hne : chunks ≠ [])
    (hq : index.query (extractEmbeddings chunks) k = .error e) :
    applyAll index k chunks = ⟨chunks, some e, 1⟩ ∧
    ∀ i : ℕ, ((applyAll index k chunks).chunks.getD i default).matchList =
      (chunks.getD i default).matchList := by
  have h := applyAll_of_error index k chunks e hne hq
  exact ⟨h, fun i => by rw [h]⟩

/-- C7: missing-embedding recovery.  When the index call succeeds, `apply`
does not fail; a chunk without an embedding is returned unchanged (so it
keeps zero matches if it had zero), while every chunk with an embedding
still receives, appended, the full matches of its own backend row. -/
theorem c7_missing_embedding (index : Index) (k : ℕ) (chunks : List Chunk)
    (ids dists : List (List ℚ))
    (hq : index.query (extractEmbeddings chunks) k = .ok (ids, dists))
    (i : ℕ) (hi : i < chunks.length)
    (hnone : (chunks.getD i default).embedding = none) :
    (applyAll index k chunks).error = none ∧
    (applyAll index k chunks).chunks.getD i default = chunks.getD i default ∧
    ((chunks.getD i default).matchList = [] →
      ((applyAll index k chunks).chunks.getD i default).matchList = []) ∧
    ∀ (j : ℕ) (v : List ℚ), j < chunks.length →
      (chunks.getD j default).embedding = some v →
      ((applyAll index k chunks).chunks.getD j default).matchList =
        (chunks.getD j default).matchList ++
          buildMatches (chunks.getD j default)
            (ids.getD (rowIndex chunks j) []) (dists.getD (rowIndex chunks j) []) := by
  have hch := applyAll_chunks_ok index k chunks ids dists hq
  refine ⟨applyAll_error_ok index k chunks ids dists hq, ?_, ?_, ?_⟩
  · rw [hch]
    exact attachRows_getD_none chunks ids dists i hi hnone
  · intro h0
    rw [hch, attachRows_getD_none chunks ids dists i hi hnone]
    exact h0
  · intro j v hj hemb
    rw [hch, attachRows_getD_some chunks ids dists j v hj hemb]

/-- C8: empty-batch no-op.  Applying the driver to an empty chunk sequence
performs zero index calls, reports no error and returns the chunk list
unchanged. -/
theorem c8_empty_batch (index : Index) (k : ℕ) :
    applyAll index k [] = ⟨[], none, 0⟩ := rfl

/-- C9: double application appends.  Starting from chunks with empty match
lists, a second successful `apply` on the result of a first one appends a
second identical set of matches: each chunk then holds exactly the matches
of one call twice, the first call's matches staying in place as the prefix. -/
theorem c9_double_apply (index : Index) (k : ℕ) (chunks : List Chunk)
    (ids dists : List (List ℚ))
    (hq : index.query (extractEmbeddings chunks) k = .ok (ids, dists))
    (hempty : ∀ c ∈ chunks, c.matchList = [])
    (i : ℕ) (hi : i < chunks.length) :
    ((applyAll index k ((applyAll index k chunks).chunks)).chunks.getD i
        default).matchList =
      ((applyAll index k chunks).chunks.getD i default).matchList ++
        ((applyAll index k chunks).chunks.getD i default).matchList := by
  have h1 : (applyAll index k chunks).chunks = attachRows chunks ids dists :=
    applyAll_chunks_ok index k chunks ids dists hq
  have hq2 : index.query (extractEmbeddings (attachRows chunks ids dists)) k =
      .ok (ids, dists) := by
    rw [extractEmbeddings_attachRows]; exact hq
  have h2 : (applyAll index k (attachRows chunks ids dists)).chunks =
      attachRows (attachRows chunks ids dists) ids dists :=
    applyAll_chunks_ok index k _ ids dists hq2
  rw [h1, h2]
  have hmem : chunks.getD i default ∈ chunks := by
    rw [List.getD_eq_getElem chunks default hi]
    exact List.getElem_mem hi
  have hm0 : (chunks.getD i default).matchList = [] := hempty _ hmem
  have hlen : i < (attachRows chunks ids dists).length := by
    rw [attachRows_length]; exact hi
  cases hemb : (chunks.getD i default).embedding with
  | none =>
    have e1 := attachRows_getD_none chunks ids dists i hi hemb
    have hemb2 : ((attachRows chunks ids dists).getD i default).embedding = none := by
      rw [e1]; exact hemb
    have e2 := attachRows_getD_none (attachRows chunks ids dists) ids dists i hlen hemb2
    rw [e2, e1, hm0]
    rfl
  | some v =>
    have e1 := attachRows_getD_some chunks ids dists i v hi hemb
    have hemb2 : ((attachRows chunks ids dists).getD i default).embedding = some v := by
      rw [e1]; exact hemb
    have e2 := attachRows_getD_some (attachRows chunks ids dists) ids dists i v hlen hemb2
    have m1 : ((attachRows chunks ids dists).getD i default).matchList =
        buildMatches (chunks.getD i default)
          (ids.getD (rowIndex chunks i) []) (dists.getD (rowIndex chunks i) []) := by
      rw [e1]
      dsimp only
      rw [hm0]
      simp
    have m2' : buildMatches ((attachRows chunks ids dists).getD i default)
        (ids.getD (rowIndex chunks i) []) (dists.getD (rowIndex chunks i) []) =
        buildMatches (chunks.getD i default)
          (ids.getD (rowIndex chunks i) []) (dists.getD (rowIndex chunks i) []) := by
      rw [e1]
      exact rfl
    have m2 : ((attachRows (attachRows chunks ids dists) ids dists).getD i
        default).matchList =
        ((attachRows chunks ids dists).getD i default).matchList ++
          buildMatches (chunks.getD i default)
            (ids.getD (rowIndex chunks i) []) (dists.getD (rowIndex chunks i) []) := by
      rw [e2]
      dsimp only
      rw [rowIndex_attachRows chunks ids dists i, m2']
    rw [m2, m1]

/-! ### Concrete witnesses -/

theorem c2_cardinality_witness :
    ((applyAll ⟨fun _ _ => .ok ([[5]], [[7]])⟩ 2 [⟨1, 0, some [3], []⟩]).chunks.getD 0
        default).matchList.length =
      (([⟨1, 0, some [3], []⟩] : List Chunk).getD 0 default).matchList.length +
        min 2 ((([[5]] : List (List ℚ)).getD
          (rowIndex [⟨1, 0, some [3], []⟩] 0) []).length) :=
  c2_cardinality ⟨fun _ _ => .ok ([[5]], [[7]])⟩ 2 [⟨1, 0, some [3], []⟩]
    [[5]] [[7]] rfl rfl (by simp) 0 (by simp) [3] rfl

theorem c3_depth_inheritance_witness :
    (⟨5, 0, ⟨1, 7⟩⟩ : Mtch).level_depth =
      (⟨1, 0, some [3], [⟨5, 0, ⟨1, 7⟩⟩]⟩ : Chunk).level_depth :=
  c3_depth_inheritance ⟨fun _ _ => .ok ([[5]], [[7]])⟩ 2 [⟨1, 0, some [3], []⟩]
    (by simp) ⟨1, 0, some [3], [⟨5, 0, ⟨1, 7⟩⟩]⟩ (List.mem_cons_self _ _)
    ⟨5, 0, ⟨1, 7⟩⟩ (List.mem_cons_self _ _)

theorem c4_back_reference_witness :
    (⟨5, 0, ⟨1, 7⟩⟩ : Mtch).score.ref_id =
      (⟨1, 0, some [3], [⟨5, 0, ⟨1, 7⟩⟩]⟩ : Chunk).id :=
  c4_back_reference ⟨fun _ _ => .ok ([[5]], [[7]])⟩ 2 [⟨1, 0, some [3], []⟩]
    (by simp) ⟨1, 0, some [3], [⟨5, 0, ⟨1, 7⟩⟩]⟩ (List.mem_cons_self _ _)
    ⟨5, 0, ⟨1, 7⟩⟩ (List.mem_cons_self _ _)

theorem c5_order_preservation_witness :
    ((applyAll ⟨fun _ _ => .ok ([[5]], [[7]])⟩ 2 [⟨1, 0, some [3], []⟩]).chunks.getD 0
        default).matchList =
      (([⟨1, 0, some [3], []⟩] : List Chunk).getD 0 default).matchList ++
        buildMatches (([⟨1, 0, some [3], []⟩] : List Chunk).getD 0 default)
          (([[5]] : List (List ℚ)).getD (rowIndex [⟨1, 0, some [3], []⟩] 0) [])
          (([[7]] : List (List ℚ)).getD (rowIndex [⟨1, 0, some [3], []⟩] 0) []) ∧
    ∀ j : ℕ,
      j < min ((([[5]] : List (List ℚ)).getD (rowIndex [⟨1, 0, some [3], []⟩] 0) []).length)
          ((([[7]] : List (List ℚ)).getD (rowIndex [⟨1, 0, some [3], []⟩] 0) []).length) →
      (((applyAll ⟨fun _ _ => .ok ([[5]], [[7]])⟩ 2 [⟨1, 0, some [3], []⟩]).chunks.getD 0
          default).matchList.getD
          ((([⟨1, 0, some [3], []⟩] : List Chunk).getD 0 default).matchList.length + j)
          default).id =
        (([[5]] : List (List ℚ)).getD (rowIndex [⟨1, 0, some [3], []⟩] 0) []).getD j 0 ∧
      (((applyAll ⟨fun _ _ => .ok ([[5]], [[7]])⟩ 2 [⟨1, 0, some [3], []⟩]).chunks.getD 0
          default).matchList.getD
          ((([⟨1, 0, some [3], []⟩] : List Chunk).getD 0 default).matchList.length + j)
          default).score.value =
        (([[7]] : List (List ℚ)).getD (rowIndex [⟨1, 0, some [3], []⟩] 0) []).getD j 0 :=
  c5_order_preservation ⟨fun _ _ => .ok ([[5]], [[7]])⟩ 2 [⟨1, 0, some [3], []⟩]
    [[5]] [[7]] rfl 0 (by simp) [3] rfl

theorem c6_batch_atomicity_witness :
    applyAll ⟨fun _ _ => .error "down"⟩ 2 [⟨1, 0, some [3], []⟩] =
      ⟨[⟨1, 0, some [3], []⟩], some "down", 1⟩ ∧
    ∀ i : ℕ,
      ((applyAll ⟨fun _ _ => .error "down"⟩ 2 [⟨1, 0, some [3], []⟩]).chunks.getD i
          default).matchList =
        (([⟨1, 0, some [3], []⟩] : List Chunk).getD i default).matchList :=
  c6_batch_atomicity ⟨fun _ _ => .error "down"⟩ 2 [⟨1, 0, some [3], []⟩] "down"
    (by simp) rfl

theorem c7_missing_embedding_witness :
    (applyAll ⟨fun _ _ => .ok ([[5]], [[7]])⟩ 2
        [⟨1, 0, none, []⟩, ⟨2, 0, some [3], []⟩]).error = none ∧
    (applyAll ⟨fun _ _ => .ok ([[5]], [[7]])⟩ 2
        [⟨1, 0, none, []⟩, ⟨2, 0, some [3], []⟩]).chunks.getD 0 default =
      ([⟨1, 0, none, []⟩, ⟨2, 0, some [3], []⟩] : List Chunk).getD 0 default ∧
    ((([⟨1, 0, none, []⟩, ⟨2, 0, some [3], []⟩] : List Chunk).getD 0
        default).matchList = [] →
      ((applyAll ⟨fun _ _ => .ok ([[5]], [[7]])⟩ 2
          [⟨1, 0, none, []⟩, ⟨2, 0, some [3], []⟩]).chunks.getD 0 default).matchList = []) ∧
    ∀ (j : ℕ) (v : List ℚ),
      j < ([⟨1, 0, none, []⟩, ⟨2, 0, some [3], []⟩] : List Chunk).length →
      (([⟨1, 0, none, []⟩, ⟨2, 0, some [3], []⟩] : List Chunk).getD j
          default).embedding = some v →
      ((applyAll ⟨fun _ _ => .ok ([[5]], [[7]])⟩ 2
          [⟨1, 0, none, []⟩, ⟨2, 0, some [3], []⟩]).chunks.getD j default).matchList =
        (([⟨1, 0, none, []⟩, ⟨2, 0, some [3], []⟩] : List Chunk).getD j
            default).matchList ++
          buildMatches
            (([⟨1, 0, none, []⟩, ⟨2, 0, some [3], []⟩] : List Chunk).getD j default)
            (([[5]] : List (List ℚ)).getD
              (rowIndex [⟨1, 0, none, []⟩, ⟨2, 0, some [3], []⟩] j) [])
            (([[7]] : List (List ℚ)).getD
              (rowIndex [⟨1, 0, none, []⟩, ⟨2, 0, some [3], []⟩] j) []) :=
  c7_missing_embedding ⟨fun _ _ => .ok ([[5]], [[7]])⟩ 2
    [⟨1, 0, none, []⟩, ⟨2, 0, some [3], []⟩] [[5]] [[7]] rfl 0 (by simp) rfl

theorem c9_double_apply_witness :
    ((applyAll ⟨fun _ _ => .ok ([[5]], [[7]])⟩ 2
        ((applyAll ⟨fun _ _ => .ok ([[5]], [[7]])⟩ 2
          [⟨1, 0, some [3], []⟩]).chunks)).chunks.getD 0 default).matchList =
      ((applyAll ⟨fun _ _ => .ok ([[5]], [[7]])⟩ 2
          [⟨1, 0, some [3], []⟩]).chunks.getD 0 default).matchList ++
        ((applyAll ⟨fun _ _ => .ok ([[5]], [[7]])⟩ 2
            [⟨1, 0, some [3], []⟩]).chunks.getD 0 default).matchList :=
  c9_double_apply ⟨fun _ _ => .ok ([[5]], [[7]])⟩ 2 [⟨1, 0, some [3], []⟩]
    [[5]] [[7]] rfl (by simp) 0 (by simp)

end JinaVectorSearch

namespace JinaHubUpdate

/-- One check run of a PR head commit, as consumed by
`all_checks_passed` in `scripts/jina-hub-update.py`: its `status` and
`conclusion` strings. -/
structure CheckRun where
  status : String
  conclusion : String
deriving DecidableEq, Inhabited

/-- Translated from `all_checks_passed` in `scripts/jina-hub-update.py`:
iterate over the runs; a completed run with conclusion `failure` returns
`False` at once; a run that is not completed returns `None` at once;
if the loop finishes, return `True`. -/
def all_checks_passed : List CheckRun → Option Bool
  | [] => some true
  | c :: rest =>
    if c.status = "completed" then
      if c.conclusion = "failure" then some false
      else all_checks_passed rest
    else none

/-- C10: `all_checks_passed` returns `some true` when every run is completed
and none has conclusion `failure`; it returns `none` at the first run (in
list order) that is not completed, whatever runs follow it; and whenever it
returns `some false` there is a completed run with conclusion `failure`
preceded only by completed runs without a `failure` conclusion. -/
theorem c10_all_checks_passed :
    (∀ runs : List CheckRun, (∀ r ∈ runs, r.status = "completed") →
      (∀ r ∈ runs, r.conclusion ≠ "failure") →
      all_checks_passed runs = some true) ∧
    (∀ (bs : List CheckRun) (c : CheckRun) (rest : List CheckRun),
      (∀ b ∈ bs, b.status = "completed" ∧ b.conclusion ≠ "failure") →
      c.status ≠ "completed" →
      all_checks_passed (bs ++ c :: rest) = none) ∧
    (∀ runs : List CheckRun, all_checks_passed runs = some false →
      ∃ (bs : List CheckRun) (c : CheckRun) (rest : List CheckRun),
        runs = bs ++ c :: rest ∧ c.status = "completed" ∧
        c.conclusion = "failure" ∧
        ∀ b ∈ bs, b.status = "completed" ∧ b.conclusion ≠ "failure") := by
  refine ⟨?_, ?_, ?_⟩
  · intro runs
    induction runs with
    | nil => intro _ _; rfl
    | cons r rest ih =>
      intro h1 h2
      rw [all_checks_passed, if_pos (h1 r (List.mem_cons_self r rest)),
        if_neg (h2 r (List.mem_cons_self r rest))]
      exact ih (fun a ha => h1 a (List.mem_cons_of_mem r ha))
        (fun a ha => h2 a (List.mem_cons_of_mem r ha))
  · intro bs c rest
    induction bs with
    | nil =>
      intro _ hc
      rw [List.nil_append, all_checks_passed, if_neg hc]
    | cons b bs ih =>
      intro hb hc
      rw [List.cons_append, all_checks_passed,
        if_pos (hb b (List.mem_cons_self b bs)).1,
        if_neg (hb b (List.mem_cons_self b bs)).2]
      exact ih (fun a ha => hb a (List.mem_cons_of_mem b ha)) hc
  · intro runs
    induction runs with
    | nil => intro h; simp [all_checks_passed] at h
    | cons r rest ih =>
      intro h
      rw [all_checks_passed] at h
      by_cases hs : r.status = "completed"
      · rw [if_pos hs] at h
        by_cases hf : r.conclusion = "failure"
        · exact ⟨[], r, rest, rfl, hs, hf, by simp⟩
        · rw [if_neg hf] at h
          obtain ⟨bs, c, rest', heq, hcs, hcf, hbs⟩ := ih h
          refine ⟨r :: bs, c, rest', by rw [heq, List.cons_append], hcs, hcf, ?_⟩
          intro b hb
          rcases List.mem_cons.1 hb with rfl | hb
          · exact ⟨hs, hf⟩
          · exact hbs b hb
      · rw [if_neg hs] at h
        exact absurd h (by simp)

end JinaHubUpdate
